import Mathlib

/-!
Shallow embedding of the Shop API service (`src/main.py`).

The two module-level stores `items_db : Dict[int, Item]` and
`carts_db : Dict[int, Cart]` are modelled as insertion-ordered association
lists `List (Nat × _)`, mirroring Python's `dict` semantics: lookup finds the
first entry with the key, updating an existing key replaces its value in
place (keeping its position), and inserting a fresh key appends at the end;
`dict.values()` enumerates values in insertion order.  Handlers are written
in state-passing style: each one that the source lets mutate the stores
returns the new `StoreState` alongside its result (also on the error path,
because `patch_item` mutates the stored object before it can raise).

Python floats are modelled as `Rat`; ids and quantities as `Nat`.
-/

/-- Modelled from the spec: the `Item` record of the missing
`lecture_2.hw.shop_api.models` module — `id`, `name`, `price` and a
soft-delete flag `deleted` defaulting to `false`. -/
structure Item where
  id : Nat
  name : String
  price : Rat
  deleted : Bool := false
deriving Repr, DecidableEq

/-- Modelled from the spec: `CartItem` — the referenced item's id, its name
copied at insertion time, and a quantity starting at 1. -/
structure CartItem where
  id : Nat
  name : String
  quantity : Nat
deriving Repr, DecidableEq

/-- Modelled from the spec: `Cart` — id, insertion-ordered `items`, and the
running `price` total; created empty with price 0. -/
structure Cart where
  id : Nat
  items : List CartItem := []
  price : Rat := 0
deriving Repr, DecidableEq

/-- The HTTP failure kinds raised by the handlers. -/
inductive HttpError where
  | notFound
  | notModified
  | unprocessableEntity
deriving Repr, DecidableEq

/-- `db.get(k)`: first value stored under key `k`, if any. -/
def dictGet (db : List (Nat × α)) (k : Nat) : Option α :=
  (db.find? (fun p => p.1 == k)).map (fun p => p.2)

/-- `db[k] = v`: replace the value under an existing key in place (Python
dicts keep the entry's position), or append a fresh entry. -/
def dictSet (db : List (Nat × α)) (k : Nat) (v : α) : List (Nat × α) :=
  if (db.find? (fun p => p.1 == k)).isSome then
    db.map (fun p => if p.1 = k then (k, v) else p)
  else
    db ++ [(k, v)]

/-- `list(db.values())`: values in insertion order. -/
def dictValues (db : List (Nat × α)) : List α :=
  db.map (fun p => p.2)

/-- The two module-level stores. -/
structure StoreState where
  items_db : List (Nat × Item)
  carts_db : List (Nat × Cart)
deriving Repr, DecidableEq

/-- The state at process start: both stores empty. -/
def emptyState : StoreState := { items_db := [], carts_db := [] }

/-- `POST /item` (`create_item`): assign `len(items_db) + 1` as the id and
store a fresh non-deleted record. The boundary (`ItemPost`) guarantees the
price is non-negative; the handler itself does not check it. -/
def create_item (name : String) (price : Rat) (s : StoreState) :
    Item × StoreState :=
  let item_id := s.items_db.length + 1
  let new_item : Item := { id := item_id, name := name, price := price }
  (new_item, { s with items_db := dictSet s.items_db item_id new_item })

/-- `GET /item/{id}` (`get_item`): 404 when absent or soft-deleted. -/
def get_item (id : Nat) (s : StoreState) : Except HttpError Item :=
  match dictGet s.items_db id with
  | none => .error .notFound
  | some item => if item.deleted then .error .notFound else .ok item

/-- The filter predicate of `get_item_list`'s comprehension. -/
def itemPasses (show_deleted : Bool) (min_price max_price : Option Rat)
    (item : Item) : Bool :=
  (show_deleted || !item.deleted) &&
  (match min_price with | none => true | some mp => decide (mp ≤ item.price)) &&
  (match max_price with | none => true | some mp => decide (item.price ≤ mp))

/-- `GET /item` (`get_item_list`): slice `[offset : offset + limit]` over all
stored items in insertion order, then filter by `show_deleted` and the
inclusive price bounds. -/
def get_item_list (offset limit : Nat) (min_price max_price : Option Rat)
    (show_deleted : Bool) (s : StoreState) : List Item :=
  (((dictValues s.items_db).drop offset).take limit).filter
    (itemPasses show_deleted min_price max_price)

/-- `PUT /item/{id}` (`update_item`): 404 when the id is absent, otherwise
store a fresh record built from the request (so `deleted` resets to its
default `false`). -/
def update_item (id : Nat) (name : String) (price : Rat) (s : StoreState) :
    Except HttpError Item × StoreState :=
  if (dictGet s.items_db id).isSome then
    let new_item : Item := { id := id, name := name, price := price }
    (.ok new_item, { s with items_db := dictSet s.items_db id new_item })
  else
    (.error .notFound, s)

/-- A value in a PATCH body. Python's `dict[str, Any]` is dynamically typed;
the embedding covers string and numeric values, the only ones the handler can
meaningfully assign to `name` or `price`. -/
inductive PatchValue where
  | vStr (s : String)
  | vNum (q : Rat)
deriving Repr, DecidableEq

/-- `setattr(item, key, value)` for the two allowed keys. An assignment of
the other dynamic type (a number to `name` or a string to `price`) is outside
the typed model and left as the identity; the handler only reaches `setattr`
for keys in `{name, price}`. -/
def setattrItem (it : Item) (key : String) (v : PatchValue) : Item :=
  match key, v with
  | "name", .vStr s => { it with name := s }
  | "price", .vNum q => { it with price := q }
  | _, _ => it

/-- The `for key, value in body.items()` loop of `patch_item`: apply allowed
keys in order via `setattr`, raise 422 at the first disallowed key, keeping
the mutations already made (the stored object is mutated in place). Returns
the error, if any, and the item as mutated so far. -/
def patchLoop (it : Item) : List (String × PatchValue) →
    Option HttpError × Item
  | [] => (none, it)
  | (key, value) :: rest =>
    if key = "name" ∨ key = "price" then
      patchLoop (setattrItem it key value) rest
    else
      (some .unprocessableEntity, it)

/-- `PATCH /item/{id}` (`patch_item`): 404 when absent, 304 when
soft-deleted; otherwise run the field loop. Because Python mutates the stored
object in place, the store reflects the mutated item even when the loop
raises 422. -/
def patch_item (id : Nat) (body : List (String × PatchValue))
    (s : StoreState) : Except HttpError Item × StoreState :=
  match dictGet s.items_db id with
  | none => (.error .notFound, s)
  | some item =>
    if item.deleted then (.error .notModified, s)
    else
      match patchLoop item body with
      | (none, it) => (.ok it, { s with items_db := dictSet s.items_db id it })
      | (some e, it) => (.error e, { s with items_db := dictSet s.items_db id it })

/-- `DELETE /item/{id}` (`delete_item`): 404 when absent, otherwise set
`deleted = true` on the stored record. -/
def delete_item (id : Nat) (s : StoreState) :
    Except HttpError Unit × StoreState :=
  match dictGet s.items_db id with
  | none => (.error .notFound, s)
  | some item =>
    (.ok (), { s with items_db := dictSet s.items_db id { item with deleted := true } })

/-- `POST /cart` (`create_cart`): assign `len(carts_db) + 1` and store an
empty cart. -/
def create_cart (s : StoreState) : Nat × StoreState :=
  let cart_id := s.carts_db.length + 1
  (cart_id, { s with carts_db := dictSet s.carts_db cart_id { id := cart_id } })

/-- `GET /cart/{id}` (`get_cart`): 404 when absent. -/
def get_cart (id : Nat) (s : StoreState) : Except HttpError Cart :=
  match dictGet s.carts_db id with
  | none => .error .notFound
  | some cart => .ok cart

/-- The filter predicate of `get_cart_list`'s comprehension. -/
def cartPasses (min_price max_price : Option Rat)
    (min_quantity max_quantity : Option Nat) (cart : Cart) : Bool :=
  (match min_price with | none => true | some mp => decide (mp ≤ cart.price)) &&
  (match max_price with | none => true | some mp => decide (cart.price ≤ mp)) &&
  (match min_quantity with
   | none => true
   | some mq => decide (mq ≤ (cart.items.map (fun ci => ci.quantity)).sum)) &&
  (match max_quantity with
   | none => true
   | some mq => decide ((cart.items.map (fun ci => ci.quantity)).sum ≤ mq))

/-- `GET /cart` (`get_cart_list`): same slice-then-filter pattern as
`get_item_list`. -/
def get_cart_list (offset limit : Nat) (min_price max_price : Option Rat)
    (min_quantity max_quantity : Option Nat) (s : StoreState) : List Cart :=
  (((dictValues s.carts_db).drop offset).take limit).filter
    (cartPasses min_price max_price min_quantity max_quantity)

/-- The `for cart_item in cart.items: ... else: ...` loop of `add_to_cart`:
increment the quantity of the first cart item matching the id, or report that
none matched (`none`) so the caller appends a fresh entry. -/
def bumpQuantity (itemId : Nat) : List CartItem → Option (List CartItem)
  | [] => none
  | ci :: rest =>
    if ci.id = itemId then
      some ({ ci with quantity := ci.quantity + 1 } :: rest)
    else
      (bumpQuantity itemId rest).map (fun l => ci :: l)

/-- `POST /cart/{cart_id}/add/{item_id}` (`add_to_cart`): 404 when the cart
is absent, 404 when the item is absent or soft-deleted; otherwise increment
the matching cart item's quantity or append a fresh one with quantity 1, and
add the item's current price to the cart's running total. -/
def add_to_cart (cart_id item_id : Nat) (s : StoreState) :
    Except HttpError Cart × StoreState :=
  match dictGet s.carts_db cart_id with
  | none => (.error .notFound, s)
  | some cart =>
    match dictGet s.items_db item_id with
    | none => (.error .notFound, s)
    | some item =>
      if item.deleted then (.error .notFound, s)
      else
        let newItems :=
          match bumpQuantity item.id cart.items with
          | some l => l
          | none => cart.items ++ [{ id := item.id, name := item.name, quantity := 1 }]
        let cart' := { cart with items := newItems, price := cart.price + item.price }
        (.ok cart', { s with carts_db := dictSet s.carts_db cart_id cart' })

/-- One store-mutating operation, with its request parameters. The read-only
handlers (`get_item`, `get_item_list`, `get_cart`, `get_cart_list`) never
change the stores, so reachability is determined by these. -/
inductive Op where
  | opCreateItem (name : String) (price : Rat)
  | opUpdateItem (id : Nat) (name : String) (price : Rat)
  | opPatchItem (id : Nat) (body : List (String × PatchValue))
  | opDeleteItem (id : Nat)
  | opCreateCart
  | opAddToCart (cart_id item_id : Nat)
deriving Repr

/-- The state transition of one operation (its response is discarded). -/
def applyOp (s : StoreState) : Op → StoreState
  | .opCreateItem n p => (create_item n p s).2
  | .opUpdateItem i n p => (update_item i n p s).2
  | .opPatchItem i b => (patch_item i b s).2
  | .opDeleteItem i => (delete_item i s).2
  | .opCreateCart => (create_cart s).2
  | .opAddToCart c i => (add_to_cart c i s).2

/-- Run a sequence of operations from a state. -/
def runOps (ops : List Op) (s : StoreState) : StoreState :=
  ops.foldl applyOp s

/-- A state is reachable when some operation sequence produces it from the
empty stores. -/
def Reachable (s : StoreState) : Prop :=
  ∃ ops : List Op, runOps ops emptyState = s

/-- A PATCH body key the handler accepts (`allowed_fields = {"name", "price"}`). -/
def allowedKey (k : String) : Bool :=
  k == "name" || k == "price"

/-- The item obtained by applying, in order, the allowed-key assignments that
precede the first disallowed key of the body — exactly the mutations
`patch_item` has performed when it raises 422. -/
def applyLeadingAllowed (it : Item) (body : List (String × PatchValue)) : Item :=
  (body.takeWhile (fun p => allowedKey p.1)).foldl
    (fun acc p => setattrItem acc p.1 p.2) it

/-- Stated from the spec's words, for comparison with `get_item_list`: take
the slice `[offset, offset+limit)` of all stored items in creation order
(deleted included), then keep the items passing the `show_deleted` predicate
and the inclusive, independently optional price bounds. -/
def itemListSpec (offset limit : Nat) (min_price max_price : Option Rat)
    (show_deleted : Bool) (allItems : List Item) : List Item :=
  ((allItems.drop offset).take limit).filter fun it =>
    (show_deleted || !it.deleted) &&
    (match min_price with | none => true | some mp => decide (mp ≤ it.price)) &&
    (match max_price with | none => true | some mp => decide (it.price ≤ mp))

/-- Store invariant: each store's keys are exactly `1, …, n` in insertion
order, and every stored record's `id` equals its key. -/
def StoreInv (s : StoreState) : Prop :=
  s.items_db.map Prod.fst = List.range' 1 s.items_db.length ∧
  s.carts_db.map Prod.fst = List.range' 1 s.carts_db.length ∧
  (∀ p ∈ s.items_db, p.2.id = p.1) ∧
  (∀ p ∈ s.carts_db, p.2.id = p.1)

/-- Sample state: one item `("a", price 1)`. -/
def sampleState1 : StoreState := (create_item "a" 1 emptyState).2

/-- Sample state: one item `("a", price 1)`, soft-deleted. -/
def sampleDeleted : StoreState := (delete_item 1 sampleState1).2

/-- Sample state: three items, none deleted. -/
def sampleThree : StoreState :=
  runOps [Op.opCreateItem "a" 1, Op.opCreateItem "b" 2, Op.opCreateItem "c" 3]
    emptyState

/-- Sample state: one item `("pen", price 3/2)` and one empty cart. -/
def samplePenCart : StoreState :=
  runOps [Op.opCreateItem "pen" (3/2), Op.opCreateCart] emptyState

/-! ### Association-list dictionary lemmas -/

theorem findKey_cons (k' : Nat) (v' : α) (db : List (Nat × α)) (k : Nat) :
    List.find? (fun p => p.1 == k) ((k', v') :: db) =
      if k' = k then some (k', v') else List.find? (fun p => p.1 == k) db := by
  by_cases h : k' = k
  · rw [if_pos h, List.find?_cons_of_pos]
    simpa using h
  · rw [if_neg h, List.find?_cons_of_neg]
    simpa using h

theorem dictGet_cons (k' : Nat) (v' : α) (db : List (Nat × α)) (k : Nat) :
    dictGet ((k', v') :: db) k = if k' = k then some v' else dictGet db k := by
  rw [dictGet, findKey_cons]
  by_cases h : k' = k
  · rw [if_pos h, if_pos h]
    rfl
  · rw [if_neg h, if_neg h]
    rfl

theorem dictSet_cons_ne (k' : Nat) (v' : α) (db : List (Nat × α)) (k : Nat)
    (v : α) (h : k' ≠ k) :
    dictSet ((k', v') :: db) k v = (k', v') :: dictSet db k v := by
  rw [dictSet, dictSet, findKey_cons, if_neg h]
  by_cases hs : (db.find? (fun p => p.1 == k)).isSome
  · rw [if_pos hs, if_pos hs, List.map_cons, if_neg h]
  · rw [if_neg hs, if_neg hs, List.cons_append]

theorem dictSet_cons_eq (k : Nat) (v' : α) (db : List (Nat × α)) (v : α) :
    dictSet ((k, v') :: db) k v =
      (k, v) :: db.map (fun p => if p.1 = k then (k, v) else p) := by
  rw [dictSet, findKey_cons, if_pos rfl]
  simp

theorem dictGet_map_replaceKey (db : List (Nat × α)) (k k' : Nat) (v : α)
    (h : k ≠ k') :
    dictGet (db.map (fun p => if p.1 = k then (k, v) else p)) k' = dictGet db k' := by
  induction db with
  | nil => rfl
  | cons p db ih =>
    rcases p with ⟨kp, vp⟩
    rw [List.map_cons]
    by_cases hp : kp = k
    · have h1 : (if ((kp, vp) : Nat × α).1 = k then (k, v) else (kp, vp)) = (k, v) :=
        if_pos hp
      have h2 : kp ≠ k' := fun hh => h (hp ▸ hh)
      rw [h1, dictGet_cons, dictGet_cons, if_neg h, if_neg h2, ih]
    · have h1 : (if ((kp, vp) : Nat × α).1 = k then (k, v) else (kp, vp)) = (kp, vp) :=
        if_neg hp
      rw [h1, dictGet_cons, dictGet_cons, ih]

theorem dictGet_dictSet (db : List (Nat × α)) (k k' : Nat) (v : α) :
    dictGet (dictSet db k v) k' = if k = k' then some v else dictGet db k' := by
  induction db with
  | nil =>
    rw [show dictSet ([] : List (Nat × α)) k v = [(k, v)] from rfl, dictGet_cons]
  | cons p db ih =>
    rcases p with ⟨kp, vp⟩
    by_cases hp : kp = k
    · subst hp
      rw [dictSet_cons_eq, dictGet_cons, dictGet_cons]
      by_cases h : kp = k'
      · rw [if_pos h, if_pos h]
      · rw [if_neg h, if_neg h, if_neg h, dictGet_map_replaceKey _ _ _ _ h]
    · rw [dictSet_cons_ne _ _ _ _ _ hp, dictGet_cons, dictGet_cons, ih]
      by_cases h1 : kp = k'
      · have h2 : k ≠ k' := fun hh => hp (h1.trans hh.symm)
        rw [if_pos h1, if_neg h2, if_pos h1]
      · rw [if_neg h1, if_neg h1]

theorem dictGet_dictSet_self (db : List (Nat × α)) (k : Nat) (v : α) :
    dictGet (dictSet db k v) k = some v := by
  rw [dictGet_dictSet, if_pos rfl]

theorem dictSet_dictSet (db : List (Nat × α)) (k : Nat) (v w : α) :
    dictSet (dictSet db k v) k w = dictSet db k w := by
  induction db with
  | nil =>
    rw [show dictSet ([] : List (Nat × α)) k v = [(k, v)] from rfl,
      show dictSet ([] : List (Nat × α)) k w = [(k, w)] from rfl, dictSet_cons_eq]
    rfl
  | cons p db ih =>
    rcases p with ⟨kp, vp⟩
    by_cases hp : kp = k
    · subst hp
      rw [dictSet_cons_eq, dictSet_cons_eq, dictSet_cons_eq, List.map_map]
      congr 1
      apply List.map_congr_left
      intro p _
      by_cases h : p.1 = kp
      · simp [h]
      · simp [h]
    · rw [dictSet_cons_ne _ _ _ _ _ hp, dictSet_cons_ne _ _ _ _ _ hp,
        dictSet_cons_ne _ _ _ _ _ hp, ih]

theorem map_replaceKey_eq_self (db : List (Nat × α)) (k : Nat) (v : α)
    (h : k ∉ db.map Prod.fst) :
    db.map (fun p => if p.1 = k then (k, v) else p) = db := by
  induction db with
  | nil => rfl
  | cons p db ih =>
    simp only [List.map_cons, List.mem_cons, not_or] at h
    rw [List.map_cons, if_neg (fun hh => h.1 hh.symm), ih h.2]

theorem dictSet_eq_self (db : List (Nat × α)) (k : Nat) (v : α)
    (hnd : (db.map Prod.fst).Nodup) (h : dictGet db k = some v) :
    dictSet db k v = db := by
  induction db with
  | nil => simp [dictGet] at h
  | cons p db ih =>
    rcases p with ⟨kp, vp⟩
    rw [List.map_cons, List.nodup_cons] at hnd
    rw [dictGet_cons] at h
    by_cases hp : kp = k
    · subst hp
      rw [if_pos rfl] at h
      injection h with h
      subst h
      rw [dictSet_cons_eq, map_replaceKey_eq_self _ _ _ hnd.1]
    · rw [if_neg hp] at h
      rw [dictSet_cons_ne _ _ _ _ _ hp, ih hnd.2 h]

theorem dictGet_eq_none_iff (db : List (Nat × α)) (k : Nat) :
    dictGet db k = none ↔ k ∉ db.map Prod.fst := by
  rw [dictGet, Option.map_eq_none', List.find?_eq_none]
  constructor
  · intro h hmem
    rcases List.mem_map.mp hmem with ⟨p, hp, hk⟩
    exact h p hp (by simp [hk])
  · intro h p hp hbeq
    exact h (List.mem_map.mpr ⟨p, hp, by simpa using hbeq⟩)

theorem mem_of_dictGet_eq_some (db : List (Nat × α)) (k : Nat) (v : α)
    (h : dictGet db k = some v) : (k, v) ∈ db := by
  rw [dictGet, Option.map_eq_some'] at h
  rcases h with ⟨p, hp, hv⟩
  have hmem := List.mem_of_find?_eq_some hp
  have hk : p.1 = k := by simpa using List.find?_some hp
  rcases p with ⟨kp, vp⟩
  cases hk
  cases hv
  exact hmem

theorem keys_dictSet_present (db : List (Nat × α)) (k : Nat) (v : α)
    (h : (db.find? (fun p => p.1 == k)).isSome) :
    (dictSet db k v).map Prod.fst = db.map Prod.fst := by
  rw [dictSet, if_pos h, List.map_map]
  apply List.map_congr_left
  intro p _
  by_cases hp : p.1 = k
  · simp [hp]
  · simp [hp]

theorem keys_dictSet_absent (db : List (Nat × α)) (k : Nat) (v : α)
    (h : ¬ (db.find? (fun p => p.1 == k)).isSome) :
    (dictSet db k v).map Prod.fst = db.map Prod.fst ++ [k] := by
  rw [dictSet, if_neg h]
  simp

theorem mem_keys_dictSet (db : List (Nat × α)) (k k₀ : Nat) (v : α)
    (h : k₀ ∈ db.map Prod.fst) : k₀ ∈ (dictSet db k v).map Prod.fst := by
  by_cases hs : (db.find? (fun p => p.1 == k)).isSome
  · rw [keys_dictSet_present _ _ _ hs]
    exact h
  · rw [keys_dictSet_absent _ _ _ hs]
    exact List.mem_append_left _ h

theorem mem_dictSet (db : List (Nat × α)) (k : Nat) (v : α) (q : Nat × α)
    (h : q ∈ dictSet db k v) : q = (k, v) ∨ q ∈ db := by
  rw [dictSet] at h
  by_cases hs : (db.find? (fun p => p.1 == k)).isSome
  · rw [if_pos hs] at h
    rcases List.mem_map.mp h with ⟨p, hp, hq⟩
    by_cases hpk : p.1 = k
    · left
      rw [← hq, if_pos hpk]
    · right
      rw [← hq, if_neg hpk]
      exact hp
  · rw [if_neg hs] at h
    rcases List.mem_append.mp h with h | h
    · exact Or.inr h
    · simp only [List.mem_singleton] at h
      exact Or.inl h

/-! ### C10 — PATCH with an empty field mapping is a no-op -/

/-- C10: for every existing, non-soft-deleted Item, `patch_item` with an
empty field mapping succeeds and returns the Item with `name`, `price` and
`deleted` unchanged; the store is left as it was. -/
theorem patch_item_empty_body_noop (id : Nat) (s : StoreState) (item : Item)
    (hget : dictGet s.items_db id = some item)
    (hdel : item.deleted = false)
    (hkeys : (s.items_db.map Prod.fst).Nodup) :
    patch_item id [] s = (Except.ok item, s) := by
  have h1 : dictSet s.items_db id item = s.items_db :=
    dictSet_eq_self _ _ _ hkeys hget
  simp [patch_item, hget, hdel, patchLoop, h1]

/-- Witness for C10 at a concrete store. -/
theorem patch_item_empty_body_noop_witness :
    patch_item 1 [] sampleState1 =
      (Except.ok { id := 1, name := "a", price := 1 }, sampleState1) :=
  patch_item_empty_body_noop 1 sampleState1 { id := 1, name := "a", price := 1 }
    (by decide) rfl (by decide)

/-! ### C8 — soft delete is idempotent in effect -/

/-- C8: `delete_item` fails `notFound` exactly when the id is absent from the
store (equivalently, by key persistence, never assigned); on an existing id
it succeeds, marks the record `deleted = true` keeping every other field, and
running it a second time yields the same final store state. -/
theorem delete_item_idempotent (id : Nat) (s : StoreState) :
    (dictGet s.items_db id = none →
      delete_item id s = (Except.error HttpError.notFound, s)) ∧
    (∀ item, dictGet s.items_db id = some item →
      (delete_item id s).1 = Except.ok () ∧
      dictGet (delete_item id s).2.items_db id =
        some { item with deleted := true } ∧
      delete_item id (delete_item id s).2 =
        (Except.ok (), (delete_item id s).2)) := by
  constructor
  · intro h
    simp [delete_item, h]
  · intro item h
    refine ⟨by simp [delete_item, h], ?_, ?_⟩
    · simp [delete_item, h, dictGet_dictSet_self]
    · simp [delete_item, h, dictGet_dictSet_self, dictSet_dictSet]

/-- Witness for C8 at a concrete store: absent id 2 fails, deleting item 1
twice equals deleting it once. -/
theorem delete_item_idempotent_witness :
    delete_item 2 sampleState1 = (Except.error HttpError.notFound, sampleState1) ∧
    delete_item 1 (delete_item 1 sampleState1).2 =
      (Except.ok (), (delete_item 1 sampleState1).2) :=
  ⟨(delete_item_idempotent 2 sampleState1).1 (by decide),
   ((delete_item_idempotent 1 sampleState1).2 { id := 1, name := "a", price := 1 }
      (by decide)).2.2⟩

/-! ### C6 — PUT replaces with a fresh record, resurrecting deleted items -/

/-- C6: on an id absent from the store (never assigned, by key persistence)
`update_item` fails `notFound` leaving the state unchanged; on any existing
id — soft-deleted or not — it stores the fresh record
`{id, name, price, deleted := false}`, so replacing a soft-deleted Item
resurrects it. -/
theorem update_item_replace_semantics (id : Nat) (name : String) (price : Rat)
    (s : StoreState) :
    (dictGet s.items_db id = none →
      update_item id name price s = (Except.error HttpError.notFound, s)) ∧
    (∀ item, dictGet s.items_db id = some item →
      (update_item id name price s).1 =
        Except.ok { id := id, name := name, price := price, deleted := false } ∧
      dictGet (update_item id name price s).2.items_db id =
        some { id := id, name := name, price := price, deleted := false }) := by
  constructor
  · intro h
    simp [update_item, h]
  · intro item h
    refine ⟨by simp [update_item, h], ?_⟩
    simp [update_item, h, dictGet_dictSet_self]

/-- Witness for C6: replacing the soft-deleted item 1 resurrects it. -/
theorem update_item_replace_semantics_witness :
    (update_item 1 "b" 2 sampleDeleted).1 =
      Except.ok { id := 1, name := "b", price := 2, deleted := false } ∧
    dictGet (update_item 1 "b" 2 sampleDeleted).2.items_db 1 =
      some { id := 1, name := "b", price := 2, deleted := false } :=
  (update_item_replace_semantics 1 "b" 2 sampleDeleted).2
    { id := 1, name := "a", price := 1, deleted := true } (by decide)

/-! ### C9 — a failing AddItem reports notFound and mutates nothing -/

/-- C9: whenever `add_to_cart` fails, the error is `notFound` and the
returned state — both stores — is exactly the input state: all validation
happens before any mutation. -/
theorem add_to_cart_failure_atomic (cart_id item_id : Nat) (s : StoreState)
    (e : HttpError) (s' : StoreState)
    (h : add_to_cart cart_id item_id s = (Except.error e, s')) :
    e = HttpError.notFound ∧ s' = s := by
  rcases hc : dictGet s.carts_db cart_id with _ | cart
  · simp only [add_to_cart, hc] at h
    simp at h
    exact ⟨h.1.symm, h.2.symm⟩
  · rcases hi : dictGet s.items_db item_id with _ | item
    · simp only [add_to_cart, hc, hi] at h
      simp at h
      exact ⟨h.1.symm, h.2.symm⟩
    · by_cases hd : item.deleted
      · simp only [add_to_cart, hc, hi] at h
        simp [hd] at h
        exact ⟨h.1.symm, h.2.symm⟩
      · simp only [add_to_cart, hc, hi] at h
        simp [hd] at h

/-- Witness for C9: adding to an absent cart in the empty state. -/
theorem add_to_cart_failure_atomic_witness :
    HttpError.notFound = HttpError.notFound ∧ emptyState = emptyState :=
  add_to_cart_failure_atomic 1 1 emptyState HttpError.notFound emptyState rfl

/-! ### C7 — soft-deleted items are hidden from Get and filtered lists -/

/-- C7: a soft-deleted stored Item makes `get_item` fail `notFound`, never
appears in `get_item_list` with `show_deleted = false`, and does appear with
`show_deleted = true` whenever it lies in the slice and passes the price
bounds. -/
theorem deleted_item_hidden (s : StoreState) (id : Nat) (item : Item)
    (hget : dictGet s.items_db id = some item)
    (hdel : item.deleted = true) :
    get_item id s = Except.error HttpError.notFound ∧
    (∀ offset limit minP maxP,
      item ∉ get_item_list offset limit minP maxP false s) ∧
    (∀ offset limit minP maxP,
      item ∈ ((dictValues s.items_db).drop offset).take limit →
      itemPasses true minP maxP item = true →
      item ∈ get_item_list offset limit minP maxP true s) := by
  refine ⟨by simp [get_item, hget, hdel], ?_, ?_⟩
  · intro offset limit minP maxP hmem
    rw [get_item_list, List.mem_filter] at hmem
    have h2 := hmem.2
    simp [itemPasses, hdel] at h2
  · intro offset limit minP maxP hmem hpass
    rw [get_item_list]
    exact List.mem_filter.mpr ⟨hmem, hpass⟩

/-- Witness for C7 at a concrete store with item 1 soft-deleted. -/
theorem deleted_item_hidden_witness :
    get_item 1 sampleDeleted = Except.error HttpError.notFound ∧
    ({ id := 1, name := "a", price := 1, deleted := true } : Item) ∉
      get_item_list 0 10 none none false sampleDeleted ∧
    ({ id := 1, name := "a", price := 1, deleted := true } : Item) ∈
      get_item_list 0 10 none none true sampleDeleted :=
  ⟨(deleted_item_hidden sampleDeleted 1
      { id := 1, name := "a", price := 1, deleted := true } (by decide) rfl).1,
   (deleted_item_hidden sampleDeleted 1
      { id := 1, name := "a", price := 1, deleted := true } (by decide) rfl).2.1
      0 10 none none,
   (deleted_item_hidden sampleDeleted 1
      { id := 1, name := "a", price := 1, deleted := true } (by decide) rfl).2.2
      0 10 none none (by decide) (by decide)⟩

/-! ### C1 — PATCH with a disallowed key: 422, but leading allowed keys apply -/

theorem patchLoop_with_disallowed (body : List (String × PatchValue)) :
    ∀ it : Item, (∃ p ∈ body, allowedKey p.1 = false) →
      patchLoop it body =
        (some HttpError.unprocessableEntity, applyLeadingAllowed it body) := by
  induction body with
  | nil =>
    intro it h
    rcases h with ⟨p, hp, _⟩
    simp at hp
  | cons q rest ih =>
    intro it h
    rcases q with ⟨k, v⟩
    by_cases hk : k = "name" ∨ k = "price"
    · have hak : allowedKey k = true := by
        rcases hk with h1 | h1 <;> simp [allowedKey, h1]
      have hrest : ∃ p ∈ rest, allowedKey p.1 = false := by
        rcases h with ⟨p, hp, hfalse⟩
        rcases List.mem_cons.mp hp with hhead | hp
        · rw [hhead] at hfalse
          rw [hak] at hfalse
          cases hfalse
        · exact ⟨p, hp, hfalse⟩
      have happ : applyLeadingAllowed it ((k, v) :: rest) =
          applyLeadingAllowed (setattrItem it k v) rest := by
        rw [applyLeadingAllowed, applyLeadingAllowed, List.takeWhile_cons]
        simp [hak]
      simp only [patchLoop, if_pos hk, happ]
      exact ih (setattrItem it k v) hrest
    · have hk' := not_or.mp hk
      have hak : allowedKey k = false := by
        simp [allowedKey, hk'.1, hk'.2]
      have happ : applyLeadingAllowed it ((k, v) :: rest) = it := by
        rw [applyLeadingAllowed, List.takeWhile_cons]
        simp [hak]
      simp only [patchLoop, if_neg hk, happ]

/-- C1 counterexample: on the store holding item 1 = `("a", price 1)`, a
PATCH body listing the allowed key `name` before the disallowed key `junk`
fails with 422 — but the store is no longer what it was before the call: the
`name` assignment was already applied. -/
theorem patch_item_partial_application_cex :
    (patch_item 1 [("name", PatchValue.vStr "b"), ("junk", PatchValue.vNum 0)]
        sampleState1).1 = Except.error HttpError.unprocessableEntity ∧
    (patch_item 1 [("name", PatchValue.vStr "b"), ("junk", PatchValue.vNum 0)]
        sampleState1).2 ≠ sampleState1 := by
  exact ⟨rfl, by decide⟩

/-- C1 (amended): for a stored non-soft-deleted Item and a mapping holding a
key outside `{name, price}` the operation fails with 422, and the stored item
is the original with exactly the allowed-key assignments preceding the first
disallowed key applied — so the state is unchanged precisely when no allowed
key precedes the first disallowed one. -/
theorem patch_item_disallowed_key (id : Nat) (s : StoreState) (item : Item)
    (body : List (String × PatchValue))
    (hget : dictGet s.items_db id = some item)
    (hdel : item.deleted = false)
    (hbad : ∃ p ∈ body, allowedKey p.1 = false) :
    patch_item id body s =
      (Except.error HttpError.unprocessableEntity,
       { s with items_db :=
          (dictSet s.items_db id (applyLeadingAllowed item body)) }) := by
  have hloop := patchLoop_with_disallowed body item hbad
  simp [patch_item, hget, hdel, hloop]

/-- Witness for the amended C1 at the counterexample's input. -/
theorem patch_item_disallowed_key_witness :
    patch_item 1 [("name", PatchValue.vStr "b"), ("junk", PatchValue.vNum 0)]
        sampleState1 =
      (Except.error HttpError.unprocessableEntity,
       { sampleState1 with items_db :=
          (dictSet sampleState1.items_db 1
            (applyLeadingAllowed { id := 1, name := "a", price := 1 }
              [("name", PatchValue.vStr "b"), ("junk", PatchValue.vNum 0)])) }) :=
  patch_item_disallowed_key 1 sampleState1 { id := 1, name := "a", price := 1 }
    [("name", PatchValue.vStr "b"), ("junk", PatchValue.vNum 0)]
    (by decide) rfl (by decide)

/-! ### C3 — Item List: slice before filter -/

/-- C3: `get_item_list` computes exactly the spec's slice-then-filter —
slice `[offset, offset+limit)` over all stored items in creation order
(deleted included), then the `show_deleted`/price filtering; in particular on
a store of 3 items, offset 0 / limit 10 returns all 3 (when they pass the
filters) and offset 5 / limit 10 returns the empty list. -/
theorem get_item_list_slice_then_filter (offset limit : Nat)
    (minP maxP : Option Rat) (show_deleted : Bool) (s : StoreState)
    (hlim : 0 < limit) :
    get_item_list offset limit minP maxP show_deleted s =
      itemListSpec offset limit minP maxP show_deleted (dictValues s.items_db) ∧
    ((dictValues s.items_db).length = 3 →
      (∀ it ∈ dictValues s.items_db,
        itemPasses show_deleted minP maxP it = true) →
      get_item_list 0 10 minP maxP show_deleted s = dictValues s.items_db) ∧
    ((dictValues s.items_db).length = 3 →
      get_item_list 5 10 minP maxP show_deleted s = []) := by
  refine ⟨rfl, ?_, ?_⟩
  · intro h3 hall
    rw [get_item_list, List.drop_zero,
      List.take_of_length_le (by rw [h3]; norm_num)]
    exact List.filter_eq_self.mpr hall
  · intro h3
    rw [get_item_list, List.drop_eq_nil_of_le (by rw [h3]; norm_num)]
    rfl

/-- Witness for C3 on a concrete store of three live items. -/
theorem get_item_list_slice_then_filter_witness :
    get_item_list 0 10 none none false sampleThree =
      dictValues sampleThree.items_db ∧
    get_item_list 5 10 none none false sampleThree = [] :=
  ⟨(get_item_list_slice_then_filter 0 10 none none false sampleThree
      (by decide)).2.1 (by decide) (by decide),
   (get_item_list_slice_then_filter 5 10 none none false sampleThree
      (by decide)).2.2 (by decide)⟩

/-! ### C5 — the non-negative-price invariant is violated by PATCH -/

/-- C5 (code-bug exhibit): `patch_item` applies the body's `price` value with
no validation, so starting from a boundary-valid store (item 1 created with
price 1 ≥ 0) a PATCH body `{"price": -5}` succeeds and leaves a stored Item
with a negative price, breaking the spec's `price ≥ 0` data-model invariant. -/
theorem patch_item_stores_negative_price :
    (patch_item 1 [("price", PatchValue.vNum (-5))] sampleState1).1 =
      Except.ok { id := 1, name := "a", price := -5 } ∧
    (dictGet (patch_item 1 [("price", PatchValue.vNum (-5))]
        sampleState1).2.items_db 1).map (fun it => it.price) = some (-5) ∧
    (-5 : Rat) < 0 := by
  exact ⟨rfl, by decide, by decide⟩

/-! ### C2 — adding the same item twice: one CartItem, quantity 2 -/

theorem bumpQuantity_eq_none (itemId : Nat) (l : List CartItem)
    (h : ∀ ci ∈ l, ci.id ≠ itemId) : bumpQuantity itemId l = none := by
  induction l with
  | nil => rfl
  | cons ci rest ih =>
    simp only [bumpQuantity, if_neg (h ci (List.mem_cons_self ci rest))]
    rw [ih (fun x hx => h x (List.mem_cons_of_mem _ hx))]
    rfl

theorem bumpQuantity_append_match (itemId : Nat) (l : List CartItem)
    (ci : CartItem) (h : ∀ x ∈ l, x.id ≠ itemId) (hc : ci.id = itemId) :
    bumpQuantity itemId (l ++ [ci]) =
      some (l ++ [{ ci with quantity := ci.quantity + 1 }]) := by
  induction l with
  | nil => simp [bumpQuantity, hc]
  | cons x rest ih =>
    rw [List.cons_append]
    simp only [bumpQuantity, if_neg (h x (List.mem_cons_self x rest))]
    rw [ih (fun y hy => h y (List.mem_cons_of_mem _ hy))]
    rfl

/-- C2: if the cart exists, the item exists and is live, and the cart does
not yet hold that item, then two `add_to_cart` calls leave the cart with
exactly one CartItem for that item id, of quantity 2, and `price` increased
by exactly `2 × item.price`. -/
theorem add_to_cart_twice (cart_id item_id : Nat) (s : StoreState)
    (cart : Cart) (item : Item)
    (hcart : dictGet s.carts_db cart_id = some cart)
    (hitem : dictGet s.items_db item_id = some item)
    (hdel : item.deleted = false)
    (hnotin : ∀ ci ∈ cart.items, ci.id ≠ item.id) :
    ∃ cart₂ : Cart,
      dictGet (add_to_cart cart_id item_id
          (add_to_cart cart_id item_id s).2).2.carts_db cart_id = some cart₂ ∧
      cart₂.items.filter (fun ci => ci.id == item.id) =
        [{ id := item.id, name := item.name, quantity := 2 }] ∧
      cart₂.price = cart.price + 2 * item.price := by
  have hb1 : bumpQuantity item.id cart.items = none :=
    bumpQuantity_eq_none _ _ hnotin
  have hstep1 : (add_to_cart cart_id item_id s).2 =
      { s with carts_db :=
        (dictSet s.carts_db cart_id
          { cart with
            items := cart.items ++ [{ id := item.id, name := item.name, quantity := 1 }],
            price := cart.price + item.price }) } := by
    simp [add_to_cart, hcart, hitem, hdel, hb1]
  have hb2 : bumpQuantity item.id
      (cart.items ++ [{ id := item.id, name := item.name, quantity := 1 }]) =
      some (cart.items ++ [{ id := item.id, name := item.name, quantity := 2 }]) :=
    bumpQuantity_append_match _ _ _ hnotin rfl
  refine ⟨{ cart with
      items := cart.items ++ [{ id := item.id, name := item.name, quantity := 2 }],
      price := cart.price + item.price + item.price }, ?_, ?_, ?_⟩
  · rw [hstep1]
    have hc1 : dictGet (dictSet s.carts_db cart_id
        { cart with
          items := cart.items ++ [{ id := item.id, name := item.name, quantity := 1 }],
          price := cart.price + item.price }) cart_id =
        some { cart with
          items := cart.items ++ [{ id := item.id, name := item.name, quantity := 1 }],
          price := cart.price + item.price } := dictGet_dictSet_self _ _ _
    simp [add_to_cart, hc1, hitem, hdel, hb2, dictGet_dictSet_self]
  · rw [List.filter_append,
      List.filter_eq_nil_iff.mpr (fun ci hci => by simp [hnotin ci hci])]
    simp
  · ring

/-- Witness for C2: adding item 1 twice to the fresh empty cart 1. -/
theorem add_to_cart_twice_witness :
    ∃ cart₂ : Cart,
      dictGet (add_to_cart 1 1 (add_to_cart 1 1 samplePenCart).2).2.carts_db 1 =
        some cart₂ ∧
      cart₂.items.filter (fun ci => ci.id == 1) =
        [{ id := 1, name := "pen", quantity := 2 }] ∧
      cart₂.price = 0 + 2 * (3 / 2 : Rat) :=
  add_to_cart_twice 1 1 samplePenCart { id := 1 }
    { id := 1, name := "pen", price := 3 / 2 }
    rfl rfl rfl (by simp)

/-! ### C4 — id uniqueness and assignment in every reachable state -/

theorem findKey_isSome_iff (db : List (Nat × α)) (k : Nat) :
    (db.find? (fun p => p.1 == k)).isSome ↔ k ∈ db.map Prod.fst := by
  have hiff : db.find? (fun p => p.1 == k) = none ↔ k ∉ db.map Prod.fst := by
    rw [← dictGet_eq_none_iff, dictGet, Option.map_eq_none']
  constructor
  · intro h
    by_contra hmem
    rw [hiff.mpr hmem] at h
    simp at h
  · intro hmem
    rcases hfind : db.find? (fun p => p.1 == k) with _ | p
    · exact absurd hmem (hiff.mp hfind)
    · rw [hfind]
      rfl

theorem findKey_isSome_of_dictGet (db : List (Nat × α)) (k : Nat) (v : α)
    (h : dictGet db k = some v) : (db.find? (fun p => p.1 == k)).isSome := by
  rw [dictGet, Option.map_eq_some'] at h
  rcases h with ⟨p, hp, _⟩
  rw [hp]
  rfl

theorem setattrItem_id (it : Item) (k : String) (v : PatchValue) :
    (setattrItem it k v).id = it.id := by
  unfold setattrItem
  split <;> rfl

theorem patchLoop_id (body : List (String × PatchValue)) :
    ∀ it : Item, (patchLoop it body).2.id = it.id := by
  induction body with
  | nil => intro it; rfl
  | cons q rest ih =>
    intro it
    rcases q with ⟨k, v⟩
    by_cases hk : k = "name" ∨ k = "price"
    · simp only [patchLoop, if_pos hk]
      rw [ih (setattrItem it k v), setattrItem_id]
    · simp only [patchLoop, if_neg hk]

theorem StoreInv_empty : StoreInv emptyState :=
  ⟨rfl, rfl, by simp [emptyState], by simp [emptyState]⟩

theorem StoreInv_setExisting_items (s : StoreState) (hinv : StoreInv s)
    (id : Nat) (item v : Item)
    (hget : dictGet s.items_db id = some item) (hv : v.id = item.id) :
    StoreInv { s with items_db := dictSet s.items_db id v } := by
  obtain ⟨hik, hck, hii, hci⟩ := hinv
  have hkid : item.id = id := hii (id, item) (mem_of_dictGet_eq_some _ _ _ hget)
  have hs : (s.items_db.find? (fun p => p.1 == id)).isSome :=
    findKey_isSome_of_dictGet _ _ _ hget
  have hkeys : (dictSet s.items_db id v).map Prod.fst = s.items_db.map Prod.fst :=
    keys_dictSet_present _ _ _ hs
  have hlen : (dictSet s.items_db id v).length = s.items_db.length := by
    rw [dictSet, if_pos hs, List.length_map]
  refine ⟨?_, hck, ?_, hci⟩
  · show (dictSet s.items_db id v).map Prod.fst =
      List.range' 1 (dictSet s.items_db id v).length
    rw [hkeys, hlen, hik]
  · intro p hp
    rcases mem_dictSet _ _ _ _ hp with hnew | hold
    · rw [hnew]
      rw [show ((id, v) : Nat × Item).2 = v from rfl, hv, hkid]
    · exact hii p hold

theorem StoreInv_setExisting_carts (s : StoreState) (hinv : StoreInv s)
    (id : Nat) (cart v : Cart)
    (hget : dictGet s.carts_db id = some cart) (hv : v.id = cart.id) :
    StoreInv { s with carts_db := dictSet s.carts_db id v } := by
  obtain ⟨hik, hck, hii, hci⟩ := hinv
  have hkid : cart.id = id := hci (id, cart) (mem_of_dictGet_eq_some _ _ _ hget)
  have hs : (s.carts_db.find? (fun p => p.1 == id)).isSome :=
    findKey_isSome_of_dictGet _ _ _ hget
  have hkeys : (dictSet s.carts_db id v).map Prod.fst = s.carts_db.map Prod.fst :=
    keys_dictSet_present _ _ _ hs
  have hlen : (dictSet s.carts_db id v).length = s.carts_db.length := by
    rw [dictSet, if_pos hs, List.length_map]
  refine ⟨hik, ?_, hii, ?_⟩
  · show (dictSet s.carts_db id v).map Prod.fst =
      List.range' 1 (dictSet s.carts_db id v).length
    rw [hkeys, hlen, hck]
  · intro p hp
    rcases mem_dictSet _ _ _ _ hp with hnew | hold
    · rw [hnew]
      rw [show ((id, v) : Nat × Cart).2 = v from rfl, hv, hkid]
    · exact hci p hold

theorem fresh_key_not_mem (db : List (Nat × α))
    (hk : db.map Prod.fst = List.range' 1 db.length) :
    (db.length + 1) ∉ db.map Prod.fst := by
  rw [hk]
  intro hmem
  rw [List.mem_range'] at hmem
  rcases hmem with ⟨i, hi, he⟩
  omega

theorem StoreInv_append_fresh_items (s : StoreState) (hinv : StoreInv s)
    (v : Item) (hv : v.id = s.items_db.length + 1) :
    StoreInv { s with items_db := dictSet s.items_db (s.items_db.length + 1) v } := by
  obtain ⟨hik, hck, hii, hci⟩ := hinv
  have hfresh : ¬ (s.items_db.find? (fun p => p.1 == s.items_db.length + 1)).isSome = true := by
    rw [findKey_isSome_iff]
    exact fresh_key_not_mem _ hik
  have hset : dictSet s.items_db (s.items_db.length + 1) v =
      s.items_db ++ [(s.items_db.length + 1, v)] := by
    rw [dictSet, if_neg hfresh]
  refine ⟨?_, hck, ?_, hci⟩
  · show (dictSet s.items_db (s.items_db.length + 1) v).map Prod.fst =
      List.range' 1 (dictSet s.items_db (s.items_db.length + 1) v).length
    rw [hset, List.map_append, List.length_append, hik]
    simp [List.range'_1_concat, Nat.add_comm]
  · intro p hp
    rw [hset] at hp
    rcases List.mem_append.mp hp with hold | hnew
    · exact hii p hold
    · simp only [List.mem_singleton] at hnew
      rw [hnew]
      exact hv
  
theorem StoreInv_append_fresh_carts (s : StoreState) (hinv : StoreInv s)
    (v : Cart) (hv : v.id = s.carts_db.length + 1) :
    StoreInv { s with carts_db := dictSet s.carts_db (s.carts_db.length + 1) v } := by
  obtain ⟨hik, hck, hii, hci⟩ := hinv
  have hfresh : ¬ (s.carts_db.find? (fun p => p.1 == s.carts_db.length + 1)).isSome = true := by
    rw [findKey_isSome_iff]
    exact fresh_key_not_mem _ hck
  have hset : dictSet s.carts_db (s.carts_db.length + 1) v =
      s.carts_db ++ [(s.carts_db.length + 1, v)] := by
    rw [dictSet, if_neg hfresh]
  refine ⟨hik, ?_, hii, ?_⟩
  · show (dictSet s.carts_db (s.carts_db.length + 1) v).map Prod.fst =
      List.range' 1 (dictSet s.carts_db (s.carts_db.length + 1) v).length
    rw [hset, List.map_append, List.length_append, hck]
    simp [List.range'_1_concat, Nat.add_comm]
  · intro p hp
    rw [hset] at hp
    rcases List.mem_append.mp hp with hold | hnew
    · exact hci p hold
    · simp only [List.mem_singleton] at hnew
      rw [hnew]
      exact hv

theorem StoreInv_applyOp (s : StoreState) (hinv : StoreInv s) (op : Op) :
    StoreInv (applyOp s op) := by
  cases op with
  | opCreateItem name price =>
    exact StoreInv_append_fresh_items s hinv
      { id := s.items_db.length + 1, name := name, price := price } rfl
  | opUpdateItem id name price =>
    show StoreInv (update_item id name price s).2
    rcases hget : dictGet s.items_db id with _ | item
    · simp only [update_item, hget]
      exact hinv
    · have hs : (dictGet s.items_db id).isSome := by rw [hget]; rfl
      simp only [update_item, hget]
      exact StoreInv_setExisting_items s hinv id item
        { id := id, name := name, price := price } hget
        (hinv.2.2.1 (id, item) (mem_of_dictGet_eq_some _ _ _ hget)).symm
  | opPatchItem id body =>
    show StoreInv (patch_item id body s).2
    rcases hget : dictGet s.items_db id with _ | item
    · simp only [patch_item, hget]
      exact hinv
    · by_cases hd : item.deleted
      · simp only [patch_item, hget, if_pos hd]
        exact hinv
      · rcases hloop : patchLoop item body with ⟨err, it⟩
        have hid : it.id = item.id := by
          have h1 := patchLoop_id body item
          rw [hloop] at h1
          exact h1
        cases err with
        | none =>
          simp only [patch_item, hget, if_neg hd, hloop]
          exact StoreInv_setExisting_items s hinv id item it hget hid
        | some e =>
          simp only [patch_item, hget, if_neg hd, hloop]
          exact StoreInv_setExisting_items s hinv id item it hget hid
  | opDeleteItem id =>
    show StoreInv (delete_item id s).2
    rcases hget : dictGet s.items_db id with _ | item
    · simp only [delete_item, hget]
      exact hinv
    · simp only [delete_item, hget]
      exact StoreInv_setExisting_items s hinv id item
        { item with deleted := true } hget rfl
  | opCreateCart =>
    exact StoreInv_append_fresh_carts s hinv { id := s.carts_db.length + 1 } rfl
  | opAddToCart cart_id item_id =>
    show StoreInv (add_to_cart cart_id item_id s).2
    rcases hc : dictGet s.carts_db cart_id with _ | cart
    · simp only [add_to_cart, hc]
      exact hinv
    · rcases hi : dictGet s.items_db item_id with _ | item
      · simp only [add_to_cart, hc, hi]
        exact hinv
      · by_cases hd : item.deleted
        · simp only [add_to_cart, hc, hi, if_pos hd]
          exact hinv
        · simp only [add_to_cart, hc, hi, if_neg hd]
          exact StoreInv_setExisting_carts s hinv cart_id cart _ hc rfl

theorem StoreInv_runOps (ops : List Op) :
    ∀ s : StoreState, StoreInv s → StoreInv (runOps ops s) := by
  induction ops with
  | nil => exact fun s h => h
  | cons op rest ih =>
    intro s h
    exact ih (applyOp s op) (StoreInv_applyOp s h op)

theorem keys_persist_applyOp (s : StoreState) (op : Op) (k : Nat) :
    (k ∈ s.items_db.map Prod.fst → k ∈ (applyOp s op).items_db.map Prod.fst) ∧
    (k ∈ s.carts_db.map Prod.fst → k ∈ (applyOp s op).carts_db.map Prod.fst) := by
  cases op with
  | opCreateItem name price =>
    exact ⟨mem_keys_dictSet _ _ _ _, fun h => h⟩
  | opUpdateItem id name price =>
    show (_ → k ∈ (update_item id name price s).2.items_db.map Prod.fst) ∧
      (_ → k ∈ (update_item id name price s).2.carts_db.map Prod.fst)
    rcases hget : dictGet s.items_db id with _ | item
    · simp only [update_item, hget]
      exact ⟨fun h => h, fun h => h⟩
    · simp only [update_item, hget]
      exact ⟨mem_keys_dictSet _ _ _ _, fun h => h⟩
  | opPatchItem id body =>
    show (_ → k ∈ (patch_item id body s).2.items_db.map Prod.fst) ∧
      (_ → k ∈ (patch_item id body s).2.carts_db.map Prod.fst)
    rcases hget : dictGet s.items_db id with _ | item
    · simp only [patch_item, hget]
      exact ⟨fun h => h, fun h => h⟩
    · by_cases hd : item.deleted
      · simp only [patch_item, hget, if_pos hd]
        exact ⟨fun h => h, fun h => h⟩
      · rcases hloop : patchLoop item body with ⟨err, it⟩
        cases err with
        | none =>
          simp only [patch_item, hget, if_neg hd, hloop]
          exact ⟨mem_keys_dictSet _ _ _ _, fun h => h⟩
        | some e =>
          simp only [patch_item, hget, if_neg hd, hloop]
          exact ⟨mem_keys_dictSet _ _ _ _, fun h => h⟩
  | opDeleteItem id =>
    show (_ → k ∈ (delete_item id s).2.items_db.map Prod.fst) ∧
      (_ → k ∈ (delete_item id s).2.carts_db.map Prod.fst)
    rcases hget : dictGet s.items_db id with _ | item
    · simp only [delete_item, hget]
      exact ⟨fun h => h, fun h => h⟩
    · simp only [delete_item, hget]
      exact ⟨mem_keys_dictSet _ _ _ _, fun h => h⟩
  | opCreateCart =>
    exact ⟨fun h => h, mem_keys_dictSet _ _ _ _⟩
  | opAddToCart cart_id item_id =>
    show (_ → k ∈ (add_to_cart cart_id item_id s).2.items_db.map Prod.fst) ∧
      (_ → k ∈ (add_to_cart cart_id item_id s).2.carts_db.map Prod.fst)
    rcases hc : dictGet s.carts_db cart_id with _ | cart
    · simp only [add_to_cart, hc]
      exact ⟨fun h => h, fun h => h⟩
    · rcases hi : dictGet s.items_db item_id with _ | item
      · simp only [add_to_cart, hc, hi]
        exact ⟨fun h => h, fun h => h⟩
      · by_cases hd : item.deleted
        · simp only [add_to_cart, hc, hi, if_pos hd]
          exact ⟨fun h => h, fun h => h⟩
        · simp only [add_to_cart, hc, hi, if_neg hd]
          exact ⟨fun h => h, mem_keys_dictSet _ _ _ _⟩

/-- C4: in every reachable state the stored Item ids are pairwise distinct,
and so are the stored Cart ids; `create_item`/`create_cart` assign the id
`count of existing entries + 1`; and no operation removes a key, so an id
once assigned persists forever — ids are never reused. -/
theorem reachable_ids_unique (s : StoreState) (h : Reachable s) :
    (s.items_db.map (fun p => p.2.id)).Nodup ∧
    (s.carts_db.map (fun p => p.2.id)).Nodup ∧
    (∀ name price, (create_item name price s).1.id = s.items_db.length + 1) ∧
    (create_cart s).1 = s.carts_db.length + 1 ∧
    (∀ op k, k ∈ s.items_db.map Prod.fst →
      k ∈ (applyOp s op).items_db.map Prod.fst) ∧
    (∀ op k, k ∈ s.carts_db.map Prod.fst →
      k ∈ (applyOp s op).carts_db.map Prod.fst) := by
  obtain ⟨ops, rfl⟩ := h
  obtain ⟨hik, hck, hii, hci⟩ := StoreInv_runOps ops emptyState StoreInv_empty
  refine ⟨?_, ?_, fun _ _ => rfl, rfl, ?_, ?_⟩
  · have he : (runOps ops emptyState).items_db.map (fun p => p.2.id) =
        (runOps ops emptyState).items_db.map Prod.fst :=
      List.map_congr_left (fun p hp => hii p hp)
    rw [he, hik]
    exact List.nodup_range' 1 _
  · have he : (runOps ops emptyState).carts_db.map (fun p => p.2.id) =
        (runOps ops emptyState).carts_db.map Prod.fst :=
      List.map_congr_left (fun p hp => hci p hp)
    rw [he, hck]
    exact List.nodup_range' 1 _
  · exact fun op k hk => (keys_persist_applyOp _ op k).1 hk
  · exact fun op k hk => (keys_persist_applyOp _ op k).2 hk

/-- Witness for C4 at a concrete reachable state. -/
theorem reachable_ids_unique_witness :
    ((runOps [Op.opCreateItem "a" 1, Op.opCreateItem "b" 2, Op.opCreateCart]
        emptyState).items_db.map (fun p => p.2.id)).Nodup ∧
    ((runOps [Op.opCreateItem "a" 1, Op.opCreateItem "b" 2, Op.opCreateCart]
        emptyState).carts_db.map (fun p => p.2.id)).Nodup :=
  ⟨(reachable_ids_unique _ ⟨[Op.opCreateItem "a" 1, Op.opCreateItem "b" 2,
      Op.opCreateCart], rfl⟩).1,
   (reachable_ids_unique _ ⟨[Op.opCreateItem "a" 1, Op.opCreateItem "b" 2,
      Op.opCreateCart], rfl⟩).2.1⟩
